import Mathlib

/-!
Verification development for the candle-lava repository (src/clip.rs,
src/model.rs, src/main.rs).

Tensors of the candle library are shallowly embedded as a row-major flat
list of entries together with a shape.  Fallible candle operations
(`Result<Tensor>` in Rust) are embedded as `Except MErr`.  Rust `f32`
scalars are embedded as rationals, which agree with `f32` on all the
concrete inputs evaluated here.  Panics (`unwrap`, `assert!`, `todo!`,
out-of-bounds indexing) are embedded as `Except.error`, since like a
candle error they abort the surrounding computation abnormally.
-/

set_option maxRecDepth 4000
set_option linter.unusedVariables false

/-- Error model: candle errors and panics, tagged by their source. -/
inductive MErr where
  | shapeMismatch (msg : String) : MErr
  | unexpectedMergeType (t : String) : MErr
  | unsupportedSelectLayer (l : Int) : MErr
  | unsupportedVisionTower (t : String) : MErr
  | unsupportedProjector (t : String) : MErr
  | missingTensor (name : String) : MErr
  | notImplemented : MErr
  | panic (msg : String) : MErr
deriving DecidableEq, Repr

/-- A candle tensor: a shape and the row-major flat list of entries. -/
structure Tensor (α : Type) where
  shape : List Nat
  data : List α
deriving DecidableEq, Repr

namespace Tensor

/-- Row-major multi-index of flat position `i` in a tensor of shape `s`. -/
def toMulti : List Nat → Nat → List Nat
  | [], _ => []
  | _ :: rest, i => i / rest.prod :: toMulti rest (i % rest.prod)

/-- Row-major flat position of multi-index `idx` in a tensor of shape `s`. -/
def fromMulti : List Nat → List Nat → Nat
  | _, [] => 0
  | [], _ => 0
  | _ :: rest, i :: is => i * rest.prod + fromMulti rest is

/-- Build a tensor of shape `s` from an entry function on multi-indices. -/
def ofFn (s : List Nat) (f : List Nat → α) : Tensor α :=
  ⟨s, (List.range s.prod).map (fun i => f (toMulti s i))⟩

/-- Read the entry at a multi-index (default value when out of bounds). -/
def entry [Inhabited α] (t : Tensor α) (idx : List Nat) : α :=
  t.data.getD (fromMulti t.shape idx) default

/-- `Tensor::reshape`: same element count, new shape, data unchanged. -/
def reshape (t : Tensor α) (s : List Nat) : Except MErr (Tensor α) :=
  if s.prod = t.shape.prod then .ok ⟨s, t.data⟩
  else .error (.shapeMismatch "reshape")

/-- `Tensor::reshape` with a trailing `()` hole: the last dimension is
inferred from the element count, erroring unless it divides exactly. -/
def reshapeInferLast (t : Tensor α) (s : List Nat) : Except MErr (Tensor α) :=
  if h : s.prod ≠ 0 ∧ t.shape.prod % s.prod = 0 then
    .ok ⟨s ++ [t.shape.prod / s.prod], t.data⟩
  else .error (.shapeMismatch "reshape with inferred dim")

/-- `Tensor::flatten(a, b)`: merge the (inclusive) dimension range into one
dimension; row-major data is unchanged. -/
def flattenRange (t : Tensor α) (a b : Nat) : Except MErr (Tensor α) :=
  if h : a ≤ b ∧ b < t.shape.length then
    .ok ⟨t.shape.take a ++ [((t.shape.drop a).take (b - a + 1)).prod]
          ++ t.shape.drop (b + 1), t.data⟩
  else .error (.shapeMismatch "flatten")

/-- `Tensor::flatten_from(d)`: flatten dimensions `d..` into one. -/
def flattenFrom (t : Tensor α) (d : Nat) : Except MErr (Tensor α) :=
  flattenRange t d (t.shape.length - 1)

/-- `Tensor::permute(p)`: reorder dimensions by the permutation `p`. -/
def permute [Inhabited α] (t : Tensor α) (p : List Nat) : Except MErr (Tensor α) :=
  if h : p.length = t.shape.length ∧ ∀ j < t.shape.length, j ∈ p then
    .ok (ofFn (p.map (fun k => t.shape.getD k 0))
      (fun m => t.entry ((List.range t.shape.length).map
        (fun j => m.getD (p.indexOf j) 0))))
  else .error (.shapeMismatch "permute")

/-- `Tensor::transpose(i, j)`: permute swapping dimensions `i` and `j`. -/
def transpose [Inhabited α] (t : Tensor α) (i j : Nat) : Except MErr (Tensor α) :=
  permute t ((List.range t.shape.length).map
    (fun k => if k = i then j else if k = j then i else k))

/-- Indexing `t.i((.., a..b, ..))` on dimension `d`: keep rows `a..b`. -/
def narrowRange [Inhabited α] (t : Tensor α) (d a b : Nat) :
    Except MErr (Tensor α) :=
  if h : d < t.shape.length ∧ a ≤ b ∧ b ≤ t.shape.getD d 0 then
    .ok (ofFn (t.shape.set d (b - a))
      (fun m => t.entry (m.set d (m.getD d 0 + a))))
  else .error (.shapeMismatch "narrow")

/-- `Tensor::get(i)`: select index `i` of dimension 0, dropping that axis. -/
def getDim0 [Inhabited α] (t : Tensor α) (i : Nat) : Except MErr (Tensor α) :=
  if h : 0 < t.shape.length ∧ i < t.shape.getD 0 0 then
    .ok (ofFn t.shape.tail (fun m => t.entry (i :: m)))
  else .error (.panic "index out of range on dim 0")

/-- Scalar indexing `t.i((.., i, ..))` on dimension `d`, dropping that axis. -/
def indexDim [Inhabited α] (t : Tensor α) (d i : Nat) : Except MErr (Tensor α) :=
  if h : d < t.shape.length ∧ i < t.shape.getD d 0 then
    .ok (ofFn (t.shape.eraseIdx d) (fun m => t.entry (m.insertIdx d i)))
  else .error (.shapeMismatch "scalar index")

/-- `Tensor::cat(&[a, b], d)` for two tensors. -/
def cat2 [Inhabited α] (a b : Tensor α) (d : Nat) : Except MErr (Tensor α) :=
  if h : a.shape.length = b.shape.length ∧ d < a.shape.length ∧
      ∀ j < a.shape.length, j ≠ d → a.shape.getD j 0 = b.shape.getD j 0 then
    .ok (ofFn (a.shape.set d (a.shape.getD d 0 + b.shape.getD d 0))
      (fun m => if m.getD d 0 < a.shape.getD d 0 then a.entry m
                else b.entry (m.set d (m.getD d 0 - a.shape.getD d 0))))
  else .error (.shapeMismatch "cat")

/-- `Tensor::cat` over a list of tensors (left fold of binary cat). -/
def catList [Inhabited α] (ts : List (Tensor α)) (d : Nat) :
    Except MErr (Tensor α) :=
  match ts with
  | [] => .error (.shapeMismatch "cat of empty list")
  | t :: rest => rest.foldlM (fun acc x => cat2 acc x d) t

/-- `Tensor::unsqueeze(d)`: insert a size-1 axis at position `d`. -/
def unsqueeze (t : Tensor α) (d : Nat) : Except MErr (Tensor α) :=
  if d ≤ t.shape.length then
    .ok ⟨t.shape.take d ++ [1] ++ t.shape.drop d, t.data⟩
  else .error (.shapeMismatch "unsqueeze")

/-- `Tensor::broadcast_as` / `Tensor::expand`: right-aligned broadcast of
size-1 (or missing leading) dimensions to a target shape. -/
def broadcastAs [Inhabited α] (t : Tensor α) (s : List Nat) :
    Except MErr (Tensor α) :=
  if h : t.shape.length ≤ s.length ∧
      ∀ j < t.shape.length,
        t.shape.getD j 0 = s.getD (s.length - t.shape.length + j) 0 ∨
        t.shape.getD j 0 = 1 then
    .ok (ofFn s (fun m => t.entry ((List.range t.shape.length).map
      (fun j => if t.shape.getD j 0 = 1 then 0
                else m.getD (s.length - t.shape.length + j) 0))))
  else .error (.shapeMismatch "broadcast_as")

/-- Shape of the result of broadcasting two shapes against each other. -/
def broadcastShapes : List Nat → List Nat → Option (List Nat)
  | s, u =>
    let r := max s.length u.length
    let s' := List.replicate (r - s.length) 1 ++ s
    let u' := List.replicate (r - u.length) 1 ++ u
    (List.zip s' u').mapM (fun p =>
      if p.1 = p.2 then some p.1
      else if p.1 = 1 then some p.2
      else if p.2 = 1 then some p.1
      else none)

/-- `Tensor::broadcast_add`: broadcast both operands, then add pointwise. -/
def broadcastAdd [Inhabited α] [Add α] (a b : Tensor α) :
    Except MErr (Tensor α) :=
  match broadcastShapes a.shape b.shape with
  | none => .error (.shapeMismatch "broadcast_add")
  | some s => do
      let a' ← a.broadcastAs s
      let b' ← b.broadcastAs s
      .ok ⟨s, List.zipWith (· + ·) a'.data b'.data⟩

end Tensor

/-! ## Configuration and load-time validation (src/model.rs) -/

/-- Substring search on character lists. -/
def listHasInfix : List Char → List Char → Bool
  | [], pat => pat.isPrefixOf ([] : List Char)
  | c :: rest, pat => pat.isPrefixOf (c :: rest) || listHasInfix rest pat

/-- `s.contains(pat)` of Rust `str`: substring containment. -/
def strContains (s pat : String) : Bool :=
  listHasInfix s.toList pat.toList

/-- `s.starts_with(pat)` of Rust `str`. -/
def strStarts (s pat : String) : Bool :=
  pat.toList.isPrefixOf s.toList

/-- The slice of `LLaVAConfig` (src/config.rs) read by the code under
verification.  `numPatchesPerSide` is `ClipVisionTower::num_patches_per_side`,
i.e. the clip config's `image_size / patch_size` (336/14 = 24). -/
structure LLaVAConfigM where
  mmPatchMergeType : String
  imageAspectMode : String
  numPatchesPerSide : Nat
  hiddenSize : Nat
  imageNewline : Tensor ℚ
  imageGridPinpoints : List (Nat × Nat)
  visionImageSize : Nat
  mmVisionTower : String
  mmVisionSelectLayer : Int
  mmVisionSelectFeature : String
  mmProjectorType : String

/-- `mlp_gelu_match` (src/model.rs): parse `mlp<digits>x_gelu` and return the
depth, `none` otherwise.  The regex `mlp(\d+)x_gelu` is anchored at both
ends; `String.toNat?` plays the role of the digit group. -/
def mlpGeluMatch (s : String) : Option Nat :=
  if s.startsWith "mlp" ∧ s.endsWith "x_gelu" then
    ((s.drop 3).dropRight 6).toNat?
  else none

/-- `MMProjector::load` (src/model.rs), reduced to its validation outcome:
which projector types are accepted and which are a configuration error.
Weight lookups are abstracted since the weight files are external. -/
def mmProjectorCheck (t : String) : Except MErr Unit :=
  if t = "linear" then .ok ()
  else match mlpGeluMatch t with
  | some _ => .ok ()
  | none =>
    if t = "identity" then .ok ()
    else .error (.unsupportedProjector t)

/-- Abstract vision model handle: `output_hidden_states` of
`ClipVisionTransformerWithHiddenStates` viewed as a black box. -/
structure VisionModelM where
  outputHS : Tensor ℚ → Except MErr (List (Tensor ℚ))

/-- `ClipVisionTower` (src/model.rs). -/
structure ClipVisionTowerM where
  model : VisionModelM
  selectLayer : Int
  selectFeatureMethod : String

/-- `ClipVisionTower::load` (src/model.rs lines 117-144): the vision-tower
name is checked first, then the select layer (only -1 and -2 accepted,
anything else is a configuration error), and only then is the clip model
constructed (`modelCons`, abstracting the weight-dependent construction). -/
def clipVisionTowerLoad (cfg : LLaVAConfigM)
    (modelCons : Except MErr VisionModelM) : Except MErr ClipVisionTowerM := do
  let _ ← if cfg.mmVisionTower = "openai/clip-vit-large-patch14-336"
    then Except.ok ()
    else Except.error (.unsupportedVisionTower cfg.mmVisionTower)
  let sl ← if cfg.mmVisionSelectLayer = -1 ∨ cfg.mmVisionSelectLayer = -2
    then Except.ok cfg.mmVisionSelectLayer
    else Except.error (.unsupportedSelectLayer cfg.mmVisionSelectLayer)
  let model ← modelCons
  .ok ⟨model, sl, cfg.mmVisionSelectFeature⟩

/-- `ClipVisionTower::forward` (src/model.rs lines 146-155): run
`output_hidden_states`, select layer `len + select_layer` (a negative
`isize` cast `as usize` makes the index astronomically out of bounds,
i.e. a panic), and drop sequence index 0 unless the method is
`cls_patch`. -/
def clipVisionTowerForward (tw : ClipVisionTowerM) (x : Tensor ℚ) :
    Except MErr (Tensor ℚ) := do
  let result ← tw.model.outputHS x
  let index : Int := (result.length : Int) + tw.selectLayer
  let sel ← if 0 ≤ index ∧ index.toNat < result.length
    then Except.ok (result.getD index.toNat ⟨[], []⟩)
    else Except.error (.panic "hidden state index out of range")
  if tw.selectFeatureMethod = "cls_patch" then .ok sel
  else sel.narrowRange 1 1 (sel.shape.getD 1 0)

/-- The validation performed by `LLaVA::load` (src/model.rs lines 172-189):
it loads the vision tower (tower-name and select-layer checks), the
projector (projector-type check) and then weights (`weightsOk` abstracts
the weight-dependent rest: `image_newline` lookup and `Llama::load`).
It never inspects `mm_patch_merge_type`. -/
def llavaLoadChecks (cfg : LLaVAConfigM)
    (modelCons : Except MErr VisionModelM)
    (weightsOk : Except MErr Unit) : Except MErr Unit := do
  let _ ← clipVisionTowerLoad cfg modelCons
  let _ ← mmProjectorCheck cfg.mmProjectorType
  weightsOk

/-! ## unpad_image (src/model.rs lines 35-54) -/

/-- `unpad_image` (src/model.rs lines 35-54).  `original_size` is
`(width, height)`; the tensor is `(channels, height, width)`.  Rust `f32`
arithmetic is embedded as exact rational arithmetic, `floor() as usize`
as `Int.floor` followed by `Int.toNat`, and `usize` subtraction, which
panics on underflow in the source, stays within ranges validated by
`narrowRange`.  Note the source's first branch crops dimension 1 (height)
with the bound `current_width - padding`. -/
def unpadImage (t : Tensor ℚ) (originalSize : Nat × Nat) :
    Except MErr (Tensor ℚ) :=
  if t.shape.length ≠ 3 then .error (.panic "assert rank 3") else
  let ow := originalSize.1
  let oh := originalSize.2
  let currentHeight := t.shape.getD 1 0
  let currentWidth := t.shape.getD 2 0
  let originalAR : ℚ := (ow : ℚ) / (oh : ℚ)
  let currentAR : ℚ := (currentWidth : ℚ) / (currentHeight : ℚ)
  if currentAR < originalAR then
    let scaleFactor : ℚ := (currentWidth : ℚ) / (ow : ℚ)
    let newHeight : Nat := (Int.floor ((oh : ℚ) * scaleFactor)).toNat
    let padding : Nat := (currentHeight - newHeight) / 2
    t.narrowRange 1 padding (currentWidth - padding)
  else
    let scaleFactor : ℚ := (currentHeight : ℚ) / (oh : ℚ)
    let newWidth : Nat := (Int.floor ((ow : ℚ) * scaleFactor)).toNat
    let padding : Nat := (currentWidth - newWidth) / 2
    t.narrowRange 2 padding (currentWidth - padding)

/-! ## Image-feature merging (src/model.rs lines 222-298) -/

/-- Type of `get_anyres_image_grid_shape` (src/utils.rs, not under src/):
`(image_size, grid_pinpoints, patch_size) -> (num_patch_width,
num_patch_height)`.  Kept as a parameter; the claims quantify over the
resulting tile grid. -/
def GridShapeFn : Type :=
  (Nat × Nat) → List (Nat × Nat) → Nat → (Nat × Nat)

/-- `mapM` that also passes the element index (`iter().enumerate()`). -/
def mapWithIdxM (f : Nat → α → Except ε β) : Nat → List α → Except ε (List β)
  | _, [] => .ok []
  | i, x :: xs => do
    let y ← f i x
    let ys ← mapWithIdxM f (i + 1) xs
    .ok (y :: ys)

/-- Body of the `spatial*` merge for one image (src/model.rs lines 231-293):
multi-tile images split into base feature and tile features, reshaped by
the anyres grid, then merged with or without unpadding; single-tile images
keep the base feature, with the newline embedding appended under
`unpad`. -/
def mergeSpatialOne (cfg : LLaVAConfigM) (gridFn : GridShapeFn)
    (imageSizes : List (Nat × Nat)) (imageIdx : Nat)
    (imageFeature : Tensor ℚ) : Except MErr (Tensor ℚ) :=
  if imageFeature.shape.getD 0 0 > 1 then do
    let baseImageFeature ← imageFeature.getDim0 0
    let patchImageFeature ←
      imageFeature.narrowRange 0 1 (imageFeature.shape.getD 0 0)
    let height := cfg.numPatchesPerSide
    let width := height
    let _ ← if height * width = baseImageFeature.shape.getD 0 0
      then Except.ok ()
      else Except.error (.panic "assert_eq height*width")
    let imageSize ← match imageSizes.get? imageIdx with
      | some s => Except.ok s
      | none => Except.error (.panic "image_sizes index out of range")
    let nif ← if cfg.imageAspectMode = "anyres" then do
        let wh := gridFn imageSize cfg.imageGridPinpoints cfg.visionImageSize
        patchImageFeature.reshapeInferLast [wh.2, wh.1, height, width]
      else Except.error MErr.notImplemented
    let nif2 ← if strContains cfg.mmPatchMergeType "unpad" then do
        let a ← nif.permute [4, 0, 2, 1, 3]
        let b ← a.flattenRange 1 2
        let c ← b.flattenRange 2 3
        let u ← unpadImage c imageSize
        let newline0 ← cfg.imageNewline.reshape [cfg.hiddenSize, 1, 1]
        let newline ← newline0.broadcastAs
          [u.shape.getD 0 0, u.shape.getD 1 0, 1]
        let cc ← Tensor.cat2 u newline 2
        let f ← cc.flattenRange 1 2
        f.transpose 0 1
      else do
        let a ← nif.permute [0, 2, 1, 3, 4]
        a.flattenRange 0 3
    Tensor.cat2 baseImageFeature nif2 0
  else do
    let nif ← imageFeature.getDim0 0
    if strContains cfg.mmPatchMergeType "unpad" then do
      let nl ← cfg.imageNewline.unsqueeze 0
      Tensor.cat2 nif nl 0
    else .ok nif

/-- The merge-policy dispatch (src/model.rs lines 222-298): `flat` flattens
each feature; a policy starting with `spatial` runs the spatial merge;
anything else errors with the offending value. -/
def mergeImageFeatures (cfg : LLaVAConfigM) (gridFn : GridShapeFn)
    (imageFeatures : List (Tensor ℚ)) (imageSizes : List (Nat × Nat)) :
    Except MErr (List (Tensor ℚ)) :=
  if cfg.mmPatchMergeType = "flat" then
    imageFeatures.mapM (fun x => x.flattenRange 0 1)
  else if strStarts cfg.mmPatchMergeType "spatial" then
    mapWithIdxM (mergeSpatialOne cfg gridFn imageSizes) 0 imageFeatures
  else .error (.unexpectedMergeType cfg.mmPatchMergeType)

/-! ## prepare_inputs_labels_for_multimodal (src/model.rs lines 197-385) -/

/-- Indexing `v[0]` of a Rust `Vec` (panics when empty), as used by the
`println!` debug statements of `prepare_inputs_labels_for_multimodal`. -/
def vecGet0 {α : Type} (l : List α) : Except MErr α :=
  match l.get? 0 with
  | some f => .ok f
  | none => .error (.panic "index 0 out of range")

/-- `LLaVA::prepare_inputs_labels_for_multimodal` (src/model.rs lines
197-385) as it stands in the source: images are concatenated and encoded
(`encodeImages` abstracts `encode_images`, i.e. the clip tower and the
projector), split back per image (`index_pos` is never advanced in the
source loop, faithfully kept here), merged by policy - and then the
function hits `todo!()`: the fusion of the features with the token
embeddings only exists in a comment.  The `println!` calls index
`image_features[0]`, which panics when the list is empty. -/
def prepareInputsLabelsForMultimodal (cfg : LLaVAConfigM)
    (encodeImages : Tensor ℚ → Except MErr (Tensor ℚ)) (gridFn : GridShapeFn)
    (inputIds : Tensor Int) (images : List (Tensor ℚ))
    (imageSizes : List (Nat × Nat)) : Except MErr (Tensor ℚ) := do
  let concatImages ← Tensor.catList images 0
  let imageFeaturesTogether ← encodeImages concatImages
  let splitSizes := images.map (fun x => x.shape.getD 0 0)
  let imageFeatures ← splitSizes.mapM
    (fun s => imageFeaturesTogether.narrowRange 0 0 (0 + s))
  let _ ← vecGet0 imageFeatures
  let merged ← mergeImageFeatures cfg gridFn imageFeatures imageSizes
  let _ ← vecGet0 merged
  Except.error MErr.notImplemented

/-! ## Clip vision transformer hidden states (src/clip.rs) -/

/-- `ClipEncoder::output_hidden_states` (src/clip.rs lines 176-188): run
the layers in order, pushing each layer's output.  The layer bodies
(attention, layer norm, MLP) are standard transformer primitives,
abstracted as functions on tensors. -/
def clipEncoderOutputHS (layers : List (Tensor ℚ → Tensor ℚ))
    (xs : Tensor ℚ) : List (Tensor ℚ) :=
  match layers with
  | [] => []
  | l :: ls =>
    let x' := l xs
    x' :: clipEncoderOutputHS ls x'

/-- Apply the first `n` layers in order (reference composition used to
state which hidden state `clipEncoderOutputHS` stores at index `i`). -/
def applyLayers (layers : List (Tensor ℚ → Tensor ℚ)) (n : Nat)
    (xs : Tensor ℚ) : Tensor ℚ :=
  (layers.take n).foldl (fun a f => f a) xs

/-- `ClipVisionTransformerWithHiddenStates::output_hidden_states`
(src/clip.rs lines 271-282): embed pixels, pre-layer-norm, collect all
encoder layer outputs, then append the final layer norm of the
class-token (sequence position 0) slice of the last layer output.
`result.last().unwrap()` panics on an empty layer list. -/
def clipVisionOutputHS (embF preLN finalLN : Tensor ℚ → Tensor ℚ)
    (layers : List (Tensor ℚ → Tensor ℚ)) (pixels : Tensor ℚ) :
    Except MErr (List (Tensor ℚ)) := do
  let hs := preLN (embF pixels)
  let result := clipEncoderOutputHS layers hs
  let lastT ← match result.getLast? with
    | some t => Except.ok t
    | none => Except.error (.panic "last().unwrap() on empty hidden states")
  let pooled ← lastT.indexDim 1 0
  .ok (result ++ [finalLN pooled])

/-! ## ClipVisionEmbeddings (src/clip.rs lines 192-248) -/

/-- The weight store backing a `VarBuilder`: tensor name to tensor. -/
def WStore : Type := String → Option (Tensor ℚ)

/-- `VarBuilder::get(shape, name)`: look the tensor up and check its
shape. -/
def vsGet (store : WStore) (s : List Nat) (name : String) :
    Except MErr (Tensor ℚ) :=
  match store name with
  | some t => if t.shape = s then .ok t else .error (.shapeMismatch name)
  | none => .error (.missingTensor name)

/-- The clip vision configuration fields read by `ClipVisionEmbeddings`. -/
structure ClipCfgM where
  embedDim : Nat
  imageSize : Nat
  patchSize : Nat
  numChannels : Nat

/-- `num_positions = (image_size / patch_size)^2 + 1` (src/clip.rs). -/
def numPositionsOf (c : ClipCfgM) : Nat :=
  (c.imageSize / c.patchSize) ^ 2 + 1

/-- `ClipVisionEmbeddings` (src/clip.rs lines 191-197). `positionIds`
models the `arange` tensor. -/
structure ClipVisionEmbeddingsM where
  patchEmbeddingWeight : Tensor ℚ
  positionIds : List Nat
  classEmbedding : Tensor ℚ
  positionEmbeddingWeight : Tensor ℚ

/-- `ClipVisionEmbeddings::new` (src/clip.rs lines 200-231): when the
store has no `class_embedding` tensor, a freshly drawn random normal
vector silently takes its place (the draw `Tensor::randn` is modelled by
the supplied `rngf`); then `position_embedding.weight` and
`patch_embedding.weight` are loaded with their expected shapes. -/
def clipVisionEmbeddingsNew (store : WStore) (c : ClipCfgM)
    (rngf : Nat → ℚ) : Except MErr ClipVisionEmbeddingsM := do
  let classEmbedding ←
    if (store "class_embedding").isSome then
      vsGet store [c.embedDim] "class_embedding"
    else
      Except.ok (Tensor.ofFn [c.embedDim] (fun m => rngf (m.getD 0 0)))
  let numPositions := numPositionsOf c
  let positionIds := List.range numPositions
  let positionEmbeddingWeight ←
    vsGet store [numPositions, c.embedDim] "position_embedding.weight"
  let patchEmbeddingWeight ←
    vsGet store [c.embedDim, c.numChannels, c.patchSize, c.patchSize]
      "patch_embedding.weight"
  .ok ⟨patchEmbeddingWeight, positionIds, classEmbedding,
       positionEmbeddingWeight⟩

/-- Embedding-table forward on the arange position ids: row `i` of the
weight matrix, i.e. the weight itself when ids are `0..num_positions`. -/
def positionEmbeddingForward (weight : Tensor ℚ) (ids : List Nat) :
    Tensor ℚ :=
  Tensor.ofFn [ids.length, weight.shape.getD 1 0]
    (fun m => weight.entry [ids.getD (m.getD 0 0) 0, m.getD 1 0])

/-- `ClipVisionEmbeddings::forward` (src/clip.rs lines 234-248): conv
patch embedding (`convF` abstracts the `Conv2d` primitive), flatten from
dim 2 and transpose, expand the class embedding to `(batch, 1, dim)`,
concatenate along the sequence axis and broadcast-add the position
embedding. -/
def clipVisionEmbeddingsForward (m : ClipVisionEmbeddingsM)
    (convF : Tensor ℚ → Except MErr (Tensor ℚ)) (pixelValues : Tensor ℚ) :
    Except MErr (Tensor ℚ) := do
  let c0 ← convF pixelValues
  let c1 ← c0.flattenFrom 2
  let patchEmbeds ← c1.transpose 1 2
  let lastDim := m.classEmbedding.shape.getD
    (m.classEmbedding.shape.length - 1) 0
  let classEmbeds ← m.classEmbedding.broadcastAs
    [pixelValues.shape.getD 0 0, 1, lastDim]
  let embeddings ← Tensor.cat2 classEmbeds patchEmbeds 1
  let posEmb := positionEmbeddingForward m.positionEmbeddingWeight
    m.positionIds
  embeddings.broadcastAdd posEmb

/-! ## The incremental decode loop (src/main.rs lines 224-250)

The loop itself is embedded from src/main.rs.  The llama decoder it
drives lives in src/llama.rs, which is not under src/; following the
spec (sections 4.4 and 6), it is modelled by a pure logits function of
the effective sequence, with the key/value cache holding the embeddings
of all previously processed positions. -/

/-- Modelled from the spec: the sampling policy (`LogitsProcessor`,
an external candle crate) is deterministic given its seeded state, the
decoder logits function is a pure function of the effective sequence
(spec section 4.4: the cache is an optimization, never an approximation),
and `embedTok` is the language model's embedding-table lookup. -/
structure DecodeParams (E L S : Type) where
  g : List E → L
  sample : S → L → Nat × S
  embedTok : Nat → E
  eosId : Nat

/-- Modelled from the spec: the key/value cache (`llama::Cache`, not
under src/) determined by the embeddings of the positions written so
far; `use_kv_cache` mirrors the `Cache::new(!no_kv_cache, ...)` flag. -/
structure KvCache (E : Type) where
  useKV : Bool
  seq : List E
deriving DecidableEq

/-- Modelled from the spec: `llava.forward(input, context_index, cache)`.
With the cache enabled the decoder may only be fed the continuation of
the cached positions (`context_index` equal to the cache length,
otherwise the rotary positions disagree with the cache and the call is
meaningless); it returns the last-position logits of the effective
sequence `cache ++ input` and writes the new positions.  With the cache
disabled it is a fresh prefill over `input` alone at position offset
`context_index = 0` and the cache is untouched. -/
def llavaForward {E L S : Type} (p : DecodeParams E L S) (cache : KvCache E)
    (input : List E) (pos : Nat) : Except MErr (L × KvCache E) :=
  if cache.useKV then
    if pos = cache.seq.length then
      .ok (p.g (cache.seq ++ input), ⟨true, cache.seq ++ input⟩)
    else .error (.panic "cache position mismatch")
  else .ok (p.g input, cache)

/-- The generation state threaded through the loop of src/main.rs lines
224-250: the growing fused embedding sequence `_input_embeds`, the
position counter `index_pos`, the cache, the sampler state, and the
observable outputs (sampled token ids, token ids fed to the output
stream, per-step logits, and per-step `(input length, context_index)`
forward calls). -/
structure GenState (E L S : Type) where
  embeds : List E
  indexPos : Nat
  cache : KvCache E
  rng : S
  sampled : List Nat
  emitted : List Nat
  logitsTrace : List L
  callTrace : List (Nat × Nat)
deriving DecidableEq

/-- One iteration of the loop body (src/main.rs lines 227-250): choose
`(context_size, context_index)` from the cache flag and the step index,
slice the most recent `context_size` embeddings, run the decoder, advance
`index_pos`, sample, append the sampled token's embedding to the running
sequence, and - only when the token is not the end-of-sequence id - feed
it to the output stream.  Returns the new state and whether the loop
breaks. -/
def decodeStep {E L S : Type} (p : DecodeParams E L S) (index : Nat)
    (st : GenState E L S) : Except MErr (GenState E L S × Bool) := do
  let len := st.embeds.length
  let cs_ci : Nat × Nat :=
    if st.cache.useKV ∧ 0 < index then (1, st.indexPos) else (len, 0)
  let input := st.embeds.drop (len - cs_ci.1)
  let r ← llavaForward p st.cache input cs_ci.2
  let inputLen := input.length
  let ts := p.sample st.rng r.1
  let stop := ts.1 = p.eosId
  .ok ({ embeds := st.embeds ++ [p.embedTok ts.1],
         indexPos := st.indexPos + inputLen,
         cache := r.2,
         rng := ts.2,
         sampled := st.sampled ++ [ts.1],
         emitted := if stop then st.emitted else st.emitted ++ [ts.1],
         logitsTrace := st.logitsTrace ++ [r.1],
         callTrace := st.callTrace ++ [(inputLen, cs_ci.2)] }, stop)

/-- `for index in 0..max_new_tokens` with `break` on end-of-sequence. -/
def runFrom {E L S : Type} (p : DecodeParams E L S) :
    Nat → Nat → GenState E L S → Except MErr (GenState E L S)
  | 0, _, st => .ok st
  | fuel + 1, index, st =>
    match decodeStep p index st with
    | .error e => .error e
    | .ok (st', stop) =>
      if stop then .ok st' else runFrom p fuel (index + 1) st'

/-- The whole generation loop from the fused input embeddings
(src/main.rs lines 224-250): `index_pos = 0`, empty cache contents,
loop up to `max_new_tokens` steps. -/
def runGeneration {E L S : Type} (p : DecodeParams E L S) (useKV : Bool)
    (initEmbeds : List E) (s0 : S) (maxNewTokens : Nat) :
    Except MErr (GenState E L S) :=
  runFrom p maxNewTokens 0 ⟨initEmbeds, 0, ⟨useKV, []⟩, s0, [], [], [], []⟩

/-- Reference run: the loop unrolled against the full growing sequence
(what a fresh prefill over the whole sequence computes at every step).
`calls` records the uncached loop's `(input length, context_index)`
pairs. -/
structure RefOut (E L : Type) where
  sampled : List Nat
  logits : List L
  emitted : List Nat
  embedsFinal : List E
  calls : List (Nat × Nat)

/-- The reference recursion: sample from the logits of the full current
sequence, append the embedding, stop on the end-of-sequence id. -/
def refRun {E L S : Type} (p : DecodeParams E L S) :
    Nat → List E → S → RefOut E L
  | 0, embeds, _ => ⟨[], [], [], embeds, []⟩
  | fuel + 1, embeds, rng =>
    let l := p.g embeds
    let ts := p.sample rng l
    let embeds' := embeds ++ [p.embedTok ts.1]
    if ts.1 = p.eosId then ⟨[ts.1], [l], [], embeds', [(embeds.length, 0)]⟩
    else
      let r := refRun p fuel embeds' ts.2
      ⟨ts.1 :: r.sampled, l :: r.logits, ts.1 :: r.emitted, r.embedsFinal,
       (embeds.length, 0) :: r.calls⟩

/-! ## Concrete instances used by witnesses and counterexamples -/

/-- A small configuration with the `spatial` merge policy, `anyres`
aspect handling and `tile_side_patches = s`. -/
def cfgSpatial (s : Nat) : LLaVAConfigM :=
  { mmPatchMergeType := "spatial"
    imageAspectMode := "anyres"
    numPatchesPerSide := s
    hiddenSize := 1
    imageNewline := ⟨[1], [0]⟩
    imageGridPinpoints := []
    visionImageSize := 336
    mmVisionTower := "openai/clip-vit-large-patch14-336"
    mmVisionSelectLayer := -2
    mmVisionSelectFeature := "patch"
    mmProjectorType := "linear" }

/-- A grid-shape oracle returning a fixed `(num_patch_width,
num_patch_height)` pair. -/
def gridConst (w h : Nat) : GridShapeFn := fun _ _ _ => (w, h)

/-- A 2x1 anyres tile grid with 2x2 patches per tile and a scalar
embedding: one base tile plus two grid tiles of four patches each. -/
def feat3 : Tensor ℚ := ⟨[3, 4, 1], List.replicate 12 0⟩

/-- Rank-3 grid for `unpad_image`: 1 channel, height 4, width 2. -/
def t4 : Tensor ℚ := ⟨[1, 4, 2], List.replicate 8 0⟩

/-- The flat-merge configuration used to exercise
`prepare_inputs_labels_for_multimodal` end to end. -/
def cfgFlat : LLaVAConfigM := { cfgSpatial 2 with mmPatchMergeType := "flat" }

/-- A single 4D pixel tensor (1 tile, 3 channels, 2x2 pixels). -/
def img1 : Tensor ℚ := ⟨[1, 3, 2, 2], List.replicate 12 0⟩

/-- An `encode_images` stand-in producing one tile of four projected
patch embeddings. -/
def encode1 : Tensor ℚ → Except MErr (Tensor ℚ) :=
  fun _ => .ok ⟨[1, 4, 1], List.replicate 4 0⟩

/-- A token tensor with one image placeholder (id -200). -/
def idsT : Tensor Int := ⟨[1, 3], [1, -200, 2]⟩

/-- Merge policy that is none of `flat`, `spatial`, `spatial_unpad` but
still starts with `spatial`. -/
def cfg8 : LLaVAConfigM := { cfgSpatial 1 with mmPatchMergeType := "spatialextra" }

/-- A two-tile feature (base plus one 1-patch tile) for the `cfg8` run. -/
def feat8 : Tensor ℚ := ⟨[2, 1, 1], [0, 0]⟩

/-- Decode parameters whose sampler always returns token 7, configured
with end-of-sequence id 7: the very first sampled token ends the loop. -/
def pEos : DecodeParams Unit Unit Unit :=
  { g := fun _ => ()
    sample := fun s _ => (7, s)
    embedTok := fun _ => ()
    eosId := 7 }

/-- A trivial vision model producing no hidden states. -/
def model0 : VisionModelM := ⟨fun _ => .ok []⟩

/-- Tiny clip configuration: scalar embeddings, one 1x1 patch. -/
def c10cfg : ClipCfgM :=
  { embedDim := 1, imageSize := 1, patchSize := 1, numChannels := 1 }

/-- Weight store with position and patch embeddings but no
`class_embedding`. -/
def store10 : WStore := fun n =>
  if n = "position_embedding.weight" then some ⟨[2, 1], [0, 0]⟩
  else if n = "patch_embedding.weight" then some ⟨[1, 1, 1, 1], [0]⟩
  else none

/-- Two distinct random draws for the substituted class embedding. -/
def rf1 : Nat → ℚ := fun _ => 0

/-- Second random draw, differing from `rf1` at every coordinate. -/
def rf2 : Nat → ℚ := fun _ => 1

/-- Conv2d stand-in producing a `(1, 1, 1, 1)` zero patch map. -/
def convF0 : Tensor ℚ → Except MErr (Tensor ℚ) :=
  fun _ => .ok ⟨[1, 1, 1, 1], [0]⟩

/-- A `(1, 1, 1, 1)` pixel input. -/
def px0 : Tensor ℚ := ⟨[1, 1, 1, 1], [0]⟩

/-- Identity encoder layer (shape-preserving). -/
def idLayer : Tensor ℚ → Tensor ℚ := fun t => t

/-- A `(1, 1, 1)` input for the vision transformer shape witness. -/
def x9 : Tensor ℚ := ⟨[1, 1, 1], [0]⟩

/-! ## Theorems -/

@[simp] theorem Tensor.shape_ofFn {α : Type} (s : List Nat)
    (f : List Nat → α) : (Tensor.ofFn s f).shape = s := rfl

@[simp] theorem except_bind_ok {ε α β : Type} (a : α) (f : α → Except ε β) :
    (Except.ok a >>= f : Except ε β) = f a := rfl

@[simp] theorem except_bind_err {ε α β : Type} (e : ε) (f : α → Except ε β) :
    (Except.error e >>= f : Except ε β) = Except.error e := rfl

/-- Dropping all but the last element of a nonempty list leaves exactly
its last element. -/
theorem drop_len_sub_one {α : Type} :
    ∀ (l : List α) (h : l ≠ []), l.drop (l.length - 1) = [l.getLast h] := by
  intro l
  induction l with
  | nil => intro h; cases h rfl
  | cons a t ih =>
    intro h
    cases t with
    | nil => rfl
    | cons b t' =>
      have h2 : (b :: t') ≠ [] := by simp
      have := ih h2
      simp only [List.length_cons, Nat.add_sub_cancel] at this ⊢
      rw [List.getLast_cons h2]
      simpa using this

/-- A cached decode step (`index > 0`) with the invariant cache is a
fresh-prefill step over the full current sequence. -/
theorem decodeStep_cached {E L S : Type} (p : DecodeParams E L S)
    (index : Nat) (emb : List E) (rng : S) (smp emt : List Nat)
    (lgt : List L) (ctr : List (Nat × Nat)) (h1 : 0 < index)
    (h3 : emb ≠ []) :
    decodeStep p index
      (⟨emb, emb.length - 1, ⟨true, emb.dropLast⟩, rng, smp, emt, lgt, ctr⟩ :
        GenState E L S) =
    .ok (⟨emb ++ [p.embedTok (p.sample rng (p.g emb)).1], emb.length,
          ⟨true, emb⟩, (p.sample rng (p.g emb)).2,
          smp ++ [(p.sample rng (p.g emb)).1],
          (if (p.sample rng (p.g emb)).1 = p.eosId then emt
           else emt ++ [(p.sample rng (p.g emb)).1]),
          lgt ++ [p.g emb], ctr ++ [(1, emb.length - 1)]⟩,
         decide ((p.sample rng (p.g emb)).1 = p.eosId)) := by
  have hinput : emb.drop (emb.length - 1) = [emb.getLast h3] :=
    drop_len_sub_one emb h3
  have heff : emb.dropLast ++ emb.drop (emb.length - 1) = emb := by
    rw [hinput]; exact List.dropLast_append_getLast h3
  simp only [decodeStep, llavaForward, h1, and_true, if_pos, hinput, heff,
    List.length_dropLast]
  simp [h1, heff, hinput, Nat.sub_add_cancel (List.length_pos.mpr h3),
    List.dropLast_append_getLast h3]

/-- The cached prefill step (`index = 0`, empty cache): full sequence at
position offset 0, seeding the cache with every position. -/
theorem decodeStep_prefill {E L S : Type} (p : DecodeParams E L S)
    (emb : List E) (rng : S) (smp emt : List Nat) (lgt : List L)
    (ctr : List (Nat × Nat)) :
    decodeStep p 0
      (⟨emb, 0, ⟨true, []⟩, rng, smp, emt, lgt, ctr⟩ : GenState E L S) =
    .ok (⟨emb ++ [p.embedTok (p.sample rng (p.g emb)).1], emb.length,
          ⟨true, emb⟩, (p.sample rng (p.g emb)).2,
          smp ++ [(p.sample rng (p.g emb)).1],
          (if (p.sample rng (p.g emb)).1 = p.eosId then emt
           else emt ++ [(p.sample rng (p.g emb)).1]),
          lgt ++ [p.g emb], ctr ++ [(emb.length, 0)]⟩,
         decide ((p.sample rng (p.g emb)).1 = p.eosId)) := by
  simp [decodeStep, llavaForward]

/-- An uncached decode step is a fresh prefill over the whole growing
sequence at position offset 0, leaving the cache contents untouched. -/
theorem decodeStep_uncached {E L S : Type} (p : DecodeParams E L S)
    (index : Nat) (emb : List E) (ipos : Nat) (cs : List E) (rng : S)
    (smp emt : List Nat) (lgt : List L) (ctr : List (Nat × Nat)) :
    decodeStep p index
      (⟨emb, ipos, ⟨false, cs⟩, rng, smp, emt, lgt, ctr⟩ : GenState E L S) =
    .ok (⟨emb ++ [p.embedTok (p.sample rng (p.g emb)).1],
          ipos + emb.length, ⟨false, cs⟩, (p.sample rng (p.g emb)).2,
          smp ++ [(p.sample rng (p.g emb)).1],
          (if (p.sample rng (p.g emb)).1 = p.eosId then emt
           else emt ++ [(p.sample rng (p.g emb)).1]),
          lgt ++ [p.g emb], ctr ++ [(emb.length, 0)]⟩,
         decide ((p.sample rng (p.g emb)).1 = p.eosId)) := by
  simp [decodeStep, llavaForward]

/-- Steady-state cached run: from the invariant state, the cached loop
computes exactly the reference run over the full current sequence. -/
theorem runFrom_cached {E L S : Type} (p : DecodeParams E L S) :
    ∀ (fuel index : Nat) (st : GenState E L S),
      0 < index →
      st.cache = ⟨true, st.embeds.dropLast⟩ →
      st.embeds ≠ [] →
      st.indexPos = st.embeds.length - 1 →
      ∃ fin, runFrom p fuel index st = .ok fin ∧
        fin.sampled = st.sampled ++ (refRun p fuel st.embeds st.rng).sampled ∧
        fin.logitsTrace =
          st.logitsTrace ++ (refRun p fuel st.embeds st.rng).logits ∧
        fin.emitted = st.emitted ++ (refRun p fuel st.embeds st.rng).emitted ∧
        fin.embeds = (refRun p fuel st.embeds st.rng).embedsFinal := by
  intro fuel
  induction fuel with
  | zero =>
    intro index st h1 h2 h3 h4
    exact ⟨st, rfl, by simp [refRun], by simp [refRun], by simp [refRun],
      by simp [refRun]⟩
  | succ n ih =>
    intro index st h1 h2 h3 h4
    obtain ⟨emb, ipos, cch, rng, smp, emt, lgt, ctr⟩ := st
    simp only at h2 h3 h4
    subst h2 h4
    rw [runFrom, decodeStep_cached p index emb rng smp emt lgt ctr h1 h3]
    by_cases heos : (p.sample rng (p.g emb)).1 = p.eosId
    · simp only [heos, decide_True, if_true]
      refine ⟨_, rfl, ?_, ?_, ?_, ?_⟩ <;> simp [refRun, heos]
    · simp only [heos, decide_False, if_false]
      obtain ⟨fin, hrun, hs, hl, he, hb⟩ := ih (index + 1)
        ⟨emb ++ [p.embedTok (p.sample rng (p.g emb)).1], emb.length,
         ⟨true, emb⟩, (p.sample rng (p.g emb)).2,
         smp ++ [(p.sample rng (p.g emb)).1], emt ++ [(p.sample rng (p.g emb)).1],
         lgt ++ [p.g emb], ctr ++ [(1, emb.length - 1)]⟩
        (by omega) (by simp) (by simp) (by simp)
      refine ⟨fin, hrun, ?_, ?_, ?_, ?_⟩ <;>
        simp_all [refRun, heos]

/-- The cached generation run (prefill then steady decode) computes
exactly the reference run over the fused input embeddings. -/
theorem runGeneration_cached {E L S : Type} (p : DecodeParams E L S)
    (init : List E) (s0 : S) (maxNew : Nat) :
    ∃ fin, runGeneration p true init s0 maxNew = .ok fin ∧
      fin.sampled = (refRun p maxNew init s0).sampled ∧
      fin.logitsTrace = (refRun p maxNew init s0).logits ∧
      fin.emitted = (refRun p maxNew init s0).emitted ∧
      fin.embeds = (refRun p maxNew init s0).embedsFinal := by
  cases maxNew with
  | zero =>
    exact ⟨_, rfl, by simp [refRun], by simp [refRun], by simp [refRun],
      by simp [refRun]⟩
  | succ n =>
    rw [runGeneration, runFrom, decodeStep_prefill p init s0 [] [] [] []]
    by_cases heos : (p.sample s0 (p.g init)).1 = p.eosId
    · simp only [heos, decide_True, if_true]
      refine ⟨_, rfl, ?_, ?_, ?_, ?_⟩ <;> simp [refRun, heos]
    · simp only [heos, decide_False, if_false]
      obtain ⟨fin, hrun, hs, hl, he, hb⟩ := runFrom_cached p n 1
        ⟨init ++ [p.embedTok (p.sample s0 (p.g init)).1], init.length,
         ⟨true, init⟩, (p.sample s0 (p.g init)).2,
         [(p.sample s0 (p.g init)).1], [(p.sample s0 (p.g init)).1],
         [p.g init], [(init.length, 0)]⟩
        (by omega) (by simp) (by simp) (by simp)
      refine ⟨fin, hrun, ?_, ?_, ?_, ?_⟩ <;> simp_all [refRun, heos]

/-- The uncached run: every step is a fresh prefill over the entire
growing sequence at position offset 0, and the run computes exactly the
reference run; the per-step forward calls are recorded in `calls`. -/
theorem runFrom_uncached {E L S : Type} (p : DecodeParams E L S) :
    ∀ (fuel index : Nat) (st : GenState E L S),
      st.cache.useKV = false →
      ∃ fin, runFrom p fuel index st = .ok fin ∧
        fin.sampled = st.sampled ++ (refRun p fuel st.embeds st.rng).sampled ∧
        fin.logitsTrace =
          st.logitsTrace ++ (refRun p fuel st.embeds st.rng).logits ∧
        fin.emitted = st.emitted ++ (refRun p fuel st.embeds st.rng).emitted ∧
        fin.embeds = (refRun p fuel st.embeds st.rng).embedsFinal ∧
        fin.callTrace = st.callTrace ++ (refRun p fuel st.embeds st.rng).calls := by
  intro fuel
  induction fuel with
  | zero =>
    intro index st h
    exact ⟨st, rfl, by simp [refRun], by simp [refRun], by simp [refRun],
      by simp [refRun], by simp [refRun]⟩
  | succ n ih =>
    intro index st h
    obtain ⟨emb, ipos, ⟨kv, cs⟩, rng, smp, emt, lgt, ctr⟩ := st
    simp only at h
    subst h
    rw [runFrom, decodeStep_uncached p index emb ipos cs rng smp emt lgt ctr]
    by_cases heos : (p.sample rng (p.g emb)).1 = p.eosId
    · simp only [heos, decide_True, if_true]
      refine ⟨_, rfl, ?_, ?_, ?_, ?_, ?_⟩ <;> simp [refRun, heos]
    · simp only [heos, decide_False, if_false]
      obtain ⟨fin, hrun, hs, hl, he, hb, hc⟩ := ih (index + 1)
        ⟨emb ++ [p.embedTok (p.sample rng (p.g emb)).1], ipos + emb.length,
         ⟨false, cs⟩, (p.sample rng (p.g emb)).2,
         smp ++ [(p.sample rng (p.g emb)).1], emt ++ [(p.sample rng (p.g emb)).1],
         lgt ++ [p.g emb], ctr ++ [(emb.length, 0)]⟩ rfl
      refine ⟨fin, hrun, ?_, ?_, ?_, ?_, ?_⟩ <;> simp_all [refRun, heos]

/-- The uncached generation run computes the reference run, with all
forward calls over the entire growing sequence at offset 0. -/
theorem runGeneration_uncached {E L S : Type} (p : DecodeParams E L S)
    (init : List E) (s0 : S) (maxNew : Nat) :
    ∃ fin, runGeneration p false init s0 maxNew = .ok fin ∧
      fin.sampled = (refRun p maxNew init s0).sampled ∧
      fin.logitsTrace = (refRun p maxNew init s0).logits ∧
      fin.emitted = (refRun p maxNew init s0).emitted ∧
      fin.embeds = (refRun p maxNew init s0).embedsFinal ∧
      fin.callTrace = (refRun p maxNew init s0).calls := by
  obtain ⟨fin, hrun, hs, hl, he, hb, hc⟩ :=
    runFrom_uncached p maxNew 0
      ⟨init, 0, ⟨false, []⟩, s0, [], [], [], []⟩ rfl
  exact ⟨fin, hrun, by simpa using hs, by simpa using hl, by simpa using he,
    by simpa using hb, by simpa using hc⟩

/-- The reference run samples at most `fuel` tokens. -/
theorem refRun_sampled_le {E L S : Type} (p : DecodeParams E L S) :
    ∀ (fuel : Nat) (embeds : List E) (rng : S),
      (refRun p fuel embeds rng).sampled.length ≤ fuel := by
  intro fuel
  induction fuel with
  | zero => intro embeds rng; simp [refRun]
  | succ n ih =>
    intro embeds rng
    rw [refRun]
    by_cases heos : (p.sample rng (p.g embeds)).1 = p.eosId
    · simp [heos]
    · simp only [heos, if_false]
      have := ih (embeds ++ [p.embedTok (p.sample rng (p.g embeds)).1])
        (p.sample rng (p.g embeds)).2
      simp only [List.length_cons]
      omega

/-- In the reference run the end-of-sequence id, if sampled, is sampled
exactly at the last step. -/
theorem refRun_eos_last {E L S : Type} (p : DecodeParams E L S) :
    ∀ (fuel : Nat) (embeds : List E) (rng : S) (i : Nat),
      i < (refRun p fuel embeds rng).sampled.length →
      (refRun p fuel embeds rng).sampled.getD i 0 = p.eosId →
      i + 1 = (refRun p fuel embeds rng).sampled.length := by
  intro fuel
  induction fuel with
  | zero => intro embeds rng i hi; simp [refRun] at hi
  | succ n ih =>
    intro embeds rng i hi hv
    rw [refRun] at hi hv ⊢
    by_cases heos : (p.sample rng (p.g embeds)).1 = p.eosId
    · simp only [heos, if_true] at hi hv ⊢
      simp only [List.length_singleton] at hi ⊢
      omega
    · simp only [heos, if_false] at hi hv ⊢
      cases i with
      | zero => simp at hv; exact absurd hv heos
      | succ j =>
        simp only [List.length_cons] at hi ⊢
        have := ih (embeds ++ [p.embedTok (p.sample rng (p.g embeds)).1])
          (p.sample rng (p.g embeds)).2 j (by omega) (by simpa using hv)
        omega

/-- In the reference run the emitted stream is the sampled stream with
the end-of-sequence id removed. -/
theorem refRun_emitted_eq {E L S : Type} (p : DecodeParams E L S) :
    ∀ (fuel : Nat) (embeds : List E) (rng : S),
      (refRun p fuel embeds rng).emitted =
        (refRun p fuel embeds rng).sampled.filter (fun t => t ≠ p.eosId) := by
  intro fuel
  induction fuel with
  | zero => intro embeds rng; simp [refRun]
  | succ n ih =>
    intro embeds rng
    rw [refRun]
    by_cases heos : (p.sample rng (p.g embeds)).1 = p.eosId
    · simp [heos]
    · simp only [heos, if_false]
      simp [List.filter, heos, ih]

/-- The reference run appends exactly one embedding per sampled token. -/
theorem refRun_embeds_len {E L S : Type} (p : DecodeParams E L S) :
    ∀ (fuel : Nat) (embeds : List E) (rng : S),
      (refRun p fuel embeds rng).embedsFinal.length =
        embeds.length + (refRun p fuel embeds rng).sampled.length := by
  intro fuel
  induction fuel with
  | zero => intro embeds rng; simp [refRun]
  | succ n ih =>
    intro embeds rng
    rw [refRun]
    by_cases heos : (p.sample rng (p.g embeds)).1 = p.eosId
    · simp [heos]
    · simp only [heos, if_false]
      have := ih (embeds ++ [p.embedTok (p.sample rng (p.g embeds)).1])
        (p.sample rng (p.g embeds)).2
      simp only [List.length_cons]
      simp at this
      omega

/-- The reference-run call trace: step `i` runs over `initial + i`
embeddings at context index 0. -/
theorem refRun_calls {E L S : Type} (p : DecodeParams E L S) :
    ∀ (fuel : Nat) (embeds : List E) (rng : S),
      (refRun p fuel embeds rng).calls =
        (List.range (refRun p fuel embeds rng).sampled.length).map
          (fun i => (embeds.length + i, 0)) := by
  intro fuel
  induction fuel with
  | zero => intro embeds rng; simp [refRun]
  | succ n ih =>
    intro embeds rng
    rw [refRun]
    by_cases heos : (p.sample rng (p.g embeds)).1 = p.eosId
    · simp [heos, List.range_succ]
    · simp only [heos, if_false]
      have := ih (embeds ++ [p.embedTok (p.sample rng (p.g embeds)).1])
        (p.sample rng (p.g embeds)).2
      simp only [List.length_cons, List.range_succ_eq_map, List.map_cons,
        List.map_map]
      rw [this]
      congr 1
      apply List.map_congr_left
      intro a ha
      simp only [Function.comp_apply, List.length_append, List.length_cons,
        List.length_nil]
      congr 1
      omega

/-- Claim C2: for every fused embedding sequence and sampling seed, the
decode loop with the key/value cache enabled and disabled samples the
identical token sequence with step-by-step identical logits (and output
stream); with the cache disabled every step runs over the entire growing
sequence at position offset 0, a fresh prefill. -/
theorem claim2_cache_equivalence {E L S : Type} (p : DecodeParams E L S)
    (initEmbeds : List E) (s0 : S) (maxNewTokens : Nat) :
    ∃ stC stU,
      runGeneration p true initEmbeds s0 maxNewTokens = .ok stC ∧
      runGeneration p false initEmbeds s0 maxNewTokens = .ok stU ∧
      stC.sampled = stU.sampled ∧
      stC.logitsTrace = stU.logitsTrace ∧
      stC.emitted = stU.emitted ∧
      stU.callTrace = (List.range stU.sampled.length).map
        (fun i => (initEmbeds.length + i, 0)) := by
  obtain ⟨stC, hC, hCs, hCl, hCe, _⟩ :=
    runGeneration_cached p initEmbeds s0 maxNewTokens
  obtain ⟨stU, hU, hUs, hUl, hUe, _, hUc⟩ :=
    runGeneration_uncached p initEmbeds s0 maxNewTokens
  refine ⟨stC, stU, hC, hU, ?_, ?_, ?_, ?_⟩
  · rw [hCs, hUs]
  · rw [hCl, hUl]
  · rw [hCe, hUe]
  · rw [hUc, hUs, refRun_calls]

/-- Claim C5: the generation loop samples at most `max_new_tokens`
tokens, and a step that samples the end-of-sequence id is the last
step. -/
theorem claim5_termination {E L S : Type} (p : DecodeParams E L S)
    (useKV : Bool) (initEmbeds : List E) (s0 : S) (maxNewTokens : Nat) :
    ∃ st, runGeneration p useKV initEmbeds s0 maxNewTokens = .ok st ∧
      st.sampled.length ≤ maxNewTokens ∧
      ∀ i, i < st.sampled.length → st.sampled.getD i 0 = p.eosId →
        i + 1 = st.sampled.length := by
  cases useKV
  · obtain ⟨st, h, hs, _, _, _, _⟩ :=
      runGeneration_uncached p initEmbeds s0 maxNewTokens
    refine ⟨st, h, ?_, ?_⟩
    · rw [hs]; exact refRun_sampled_le p maxNewTokens initEmbeds s0
    · intro i hi hv
      rw [hs] at hi hv ⊢
      exact refRun_eos_last p maxNewTokens initEmbeds s0 i hi hv
  · obtain ⟨st, h, hs, _, _, _⟩ :=
      runGeneration_cached p initEmbeds s0 maxNewTokens
    refine ⟨st, h, ?_, ?_⟩
    · rw [hs]; exact refRun_sampled_le p maxNewTokens initEmbeds s0
    · intro i hi hv
      rw [hs] at hi hv ⊢
      exact refRun_eos_last p maxNewTokens initEmbeds s0 i hi hv

/-- Witness for claim C5 at a concrete input: the sampler immediately
returns the end-of-sequence id, so exactly one token is sampled. -/
theorem claim5_witness :
    ∃ st : GenState Unit Unit Unit,
      runGeneration pEos true [()] () 3 = .ok st ∧
      st.sampled.length ≤ 3 ∧ 0 + 1 = st.sampled.length := by
  obtain ⟨st, h, hlen, hlaw⟩ := claim5_termination pEos true [()] () 3
  have h2 : runGeneration pEos true [()] () 3 =
      .ok (⟨[(), ()], 1, ⟨true, [()]⟩, (), [7], [], [()], [(1, 0)]⟩ :
        GenState Unit Unit Unit) := rfl
  have hst : st =
      ⟨[(), ()], 1, ⟨true, [()]⟩, (), [7], [], [()], [(1, 0)]⟩ :=
    Except.ok.inj (h.symm.trans h2)
  subst hst
  exact ⟨_, h, hlen, hlaw 0 (by simp) (by simp [pEos])⟩

/-- Counterexample to claim C6: with a sampler whose first token is the
end-of-sequence id, the step that samples it appends the embedding (the
sequence grows from 1 to 2) but the token id is never fed to the output
stream (`emitted` stays empty), contradicting the claim that after every
step, including the end-of-sequence step, the id is emitted. -/
theorem claim6_counterexample :
    ∃ st : GenState Unit Unit Unit,
      runGeneration pEos true [()] () 3 = .ok st ∧
      st.sampled = [7] ∧ pEos.eosId = 7 ∧
      st.embeds.length = [()].length + 1 ∧
      st.emitted = [] ∧ ¬ (7 ∈ st.emitted) := by
  refine ⟨⟨[(), ()], 1, ⟨true, [()]⟩, (), [7], [], [()], [(1, 0)]⟩,
    rfl, rfl, rfl, ?_, rfl, ?_⟩ <;> simp

/-- Claim C6 as amended: after every step, including the one sampling the
end-of-sequence id, the sampled token's embedding is appended to the
running sequence; the token id is fed to the output stream only when it
is not the end-of-sequence id. -/
theorem claim6_amended {E L S : Type} (p : DecodeParams E L S)
    (useKV : Bool) (initEmbeds : List E) (s0 : S) (maxNewTokens : Nat) :
    ∃ st, runGeneration p useKV initEmbeds s0 maxNewTokens = .ok st ∧
      st.embeds.length = initEmbeds.length + st.sampled.length ∧
      st.emitted = st.sampled.filter (fun t => t ≠ p.eosId) := by
  cases useKV
  · obtain ⟨st, h, hs, _, he, hb, _⟩ :=
      runGeneration_uncached p initEmbeds s0 maxNewTokens
    refine ⟨st, h, ?_, ?_⟩
    · rw [hb, hs]; exact refRun_embeds_len p maxNewTokens initEmbeds s0
    · rw [he, hs]; exact refRun_emitted_eq p maxNewTokens initEmbeds s0
  · obtain ⟨st, h, hs, _, he, hb⟩ :=
      runGeneration_cached p initEmbeds s0 maxNewTokens
    refine ⟨st, h, ?_, ?_⟩
    · rw [hb, hs]; exact refRun_embeds_len p maxNewTokens initEmbeds s0
    · rw [he, hs]; exact refRun_emitted_eq p maxNewTokens initEmbeds s0

theorem getDim0_ok {α : Type} [Inhabited α] (t : Tensor α) (i : Nat)
    (h : 0 < t.shape.length ∧ i < t.shape.getD 0 0) :
    t.getDim0 i = .ok (Tensor.ofFn t.shape.tail (fun m => t.entry (i :: m))) :=
  dif_pos h

theorem narrowRange_ok {α : Type} [Inhabited α] (t : Tensor α) (d a b : Nat)
    (h : d < t.shape.length ∧ a ≤ b ∧ b ≤ t.shape.getD d 0) :
    t.narrowRange d a b = .ok (Tensor.ofFn (t.shape.set d (b - a))
      (fun m => t.entry (m.set d (m.getD d 0 + a)))) :=
  dif_pos h

theorem reshapeInferLast_ok {α : Type} (t : Tensor α) (s : List Nat)
    (h : s.prod ≠ 0 ∧ t.shape.prod % s.prod = 0) :
    t.reshapeInferLast s = .ok ⟨s ++ [t.shape.prod / s.prod], t.data⟩ :=
  dif_pos h

theorem permute_ok {α : Type} [Inhabited α] (t : Tensor α) (p : List Nat)
    (h : p.length = t.shape.length ∧ ∀ j < t.shape.length, j ∈ p) :
    t.permute p = .ok (Tensor.ofFn (p.map (fun k => t.shape.getD k 0))
      (fun m => t.entry ((List.range t.shape.length).map
        (fun j => m.getD (p.indexOf j) 0)))) :=
  dif_pos h

theorem flattenRange_ok {α : Type} (t : Tensor α) (a b : Nat)
    (h : a ≤ b ∧ b < t.shape.length) :
    t.flattenRange a b = .ok ⟨t.shape.take a ++
      [((t.shape.drop a).take (b - a + 1)).prod] ++ t.shape.drop (b + 1),
      t.data⟩ :=
  dif_pos h

theorem cat2_ok {α : Type} [Inhabited α] (a b : Tensor α) (d : Nat)
    (h : a.shape.length = b.shape.length ∧ d < a.shape.length ∧
      ∀ j < a.shape.length, j ≠ d → a.shape.getD j 0 = b.shape.getD j 0) :
    Tensor.cat2 a b d = .ok
      (Tensor.ofFn (a.shape.set d (a.shape.getD d 0 + b.shape.getD d 0))
        (fun m => if m.getD d 0 < a.shape.getD d 0 then a.entry m
                  else b.entry (m.set d (m.getD d 0 - a.shape.getD d 0)))) :=
  dif_pos h

example : strStarts "spatial" "spatial" = true := by decide
example : strContains "spatial" "unpad" = false := by decide
example : strContains "spatial_unpad" "unpad" = true := by decide
example : ("spatial" = "flat") = False := by simp
example : ¬ strStarts "qq" "spatial" = true := by decide

theorem reshapeInferLast_exact {α : Type} (t : Tensor α) (s : List Nat)
    (e : Nat) (hP : 0 < s.prod) (hlen : t.shape.prod = s.prod * e) :
    t.reshapeInferLast s = .ok ⟨s ++ [e], t.data⟩ := by
  rw [Tensor.reshapeInferLast,
    dif_pos ⟨hP.ne', by rw [hlen]; exact Nat.mul_mod_right _ _⟩,
    hlen, Nat.mul_div_cancel_left e hP]

theorem mergeSpatialOne_shape (H W s e : Nat) (hH : 0 < H) (hW : 0 < W)
    (hs : 0 < s) (data : List ℚ) (px : Nat × Nat) :
    ∃ u, mergeSpatialOne (cfgSpatial s) (gridConst W H) [px] 0
        ⟨[1 + H * W, s * s, e], data⟩ = .ok u ∧
      u.shape = [H * W * (s * s) + s * s, e] := by
  have hmul : 0 < H * W := Nat.mul_pos hH hW
  simp only [mergeSpatialOne]
  rw [if_pos (by simp; omega)]
  rw [getDim0_ok _ 0 (by simp)]
  simp only [except_bind_ok]
  rw [narrowRange_ok _ 0 1 _ (by simp)]
  simp only [except_bind_ok]
  simp only [cfgSpatial, Tensor.shape_ofFn, List.tail_cons, List.getD,
    List.get?, List.getElem?_cons_zero, Option.getD_some]
  have hsc : strContains "spatial" "unpad" = false := by decide
  simp only [if_true, hsc, Bool.false_eq_true, if_false, gridConst,
    List.set_cons_zero, Nat.add_sub_cancel_left]
  rw [reshapeInferLast_exact _ [H, W, s, s] e
    (by simp only [List.prod_cons, List.prod_nil, Nat.mul_one]
        exact Nat.mul_pos hH (Nat.mul_pos hW (Nat.mul_pos hs hs)))
    (by simp [List.prod_cons]; ring)]
  simp only [except_bind_ok, List.cons_append, List.nil_append]
  rw [permute_ok _ [0, 2, 1, 3, 4]
    (by refine ⟨by simp, ?_⟩
        intro j hj
        simp only [List.length_cons, List.length_nil] at hj
        interval_cases j <;> simp)]
  simp only [except_bind_ok, Tensor.shape_ofFn, List.map_cons, List.map_nil,
    List.getD_cons_zero, List.getD_cons_succ]
  rw [flattenRange_ok _ 0 3 (by simp)]
  simp only [except_bind_ok, Tensor.shape_ofFn, List.take_zero,
    List.drop_zero, List.nil_append, List.take_cons, List.drop_succ_cons,
    List.prod_cons, List.prod_nil, List.take_nil, List.drop_nil,
    Nat.sub_zero, Nat.reduceAdd]
  rw [cat2_ok _ _ 0 (by
    refine ⟨rfl, Nat.zero_lt_succ _, ?_⟩
    intro j hj hj0
    have hj2 : j < 2 := hj
    interval_cases j
    · exact absurd rfl hj0
    · rfl)]
  refine ⟨_, rfl, ?_⟩
  simp [List.take_succ_cons, List.prod_cons]
  ring

/-- Counterexample to claim C3: a 2x1 tile grid with 2x2-patch tiles
merged under `spatial` yields 12 output tokens, not
`num_patch_height * num_patch_width * tile_side_patches^2 + 1 = 9`:
the prepended base feature contributes `tile_side_patches^2` tokens,
not a single token. -/
theorem claim3_counterexample :
    ∃ u, mergeImageFeatures (cfgSpatial 2) (gridConst 1 2) [feat3]
        [(336, 336)] = .ok [u] ∧
      u.shape.getD 0 0 = 12 ∧
      ¬ u.shape.getD 0 0 = 2 * 1 * (2 * 2) + 1 := by
  refine ⟨⟨[12, 1], List.replicate 12 0⟩, ?_, rfl, by norm_num⟩
  rfl

/-- Claim C3 as amended: under the `spatial` (non-unpad) policy a
`num_patch_height x num_patch_width` tile grid with `tile_side_patches^2`
patch embeddings per tile merges into
`num_patch_height * num_patch_width * tile_side_patches^2 +
tile_side_patches^2` output tokens - the prepended whole-image base
feature contributes `tile_side_patches^2` tokens, not 1. -/
theorem claim3_amended (H W s e : Nat) (hH : 0 < H) (hW : 0 < W)
    (hs : 0 < s) (data : List ℚ) (px : Nat × Nat) :
    ∃ u, mergeImageFeatures (cfgSpatial s) (gridConst W H)
        [⟨[1 + H * W, s * s, e], data⟩] [px] = .ok [u] ∧
      u.shape = [H * W * (s * s) + s * s, e] := by
  obtain ⟨u, hu, hsh⟩ := mergeSpatialOne_shape H W s e hH hW hs data px
  refine ⟨u, ?_, hsh⟩
  have hsp : strStarts (cfgSpatial s).mmPatchMergeType "spatial" = true := by
    show strStarts "spatial" "spatial" = true
    decide
  rw [mergeImageFeatures, if_neg (by simp [cfgSpatial]), if_pos hsp]
  simp only [mapWithIdxM]
  rw [hu]
  simp only [except_bind_ok, mapWithIdxM]

/-- Witness for the amended claim C3 at the concrete 2x1 grid with 2x2
tiles and scalar embeddings. -/
theorem claim3_witness :
    ∃ u, mergeImageFeatures (cfgSpatial 2) (gridConst 1 2)
        [⟨[1 + 2 * 1, 2 * 2, 1], List.replicate 12 0⟩] [(336, 336)] =
        .ok [u] ∧
      u.shape = [2 * 1 * (2 * 2) + 2 * 2, 1] :=
  claim3_amended 2 1 2 1 (by norm_num) (by norm_num) (by norm_num)
    (List.replicate 12 0) (336, 336)

/-- Claim C4 (code bug): on a rank-3 grid of shape (1, height 4, width 2)
with original size (width 4, height 2), the height axis is correctly
chosen as padded (aspect 2 > 1/2) with `padding = 1`, but the crop uses
the bound `current_width - padding = 1` instead of
`current_height - padding = 3`: the result has height 0 where the claimed
symmetric crop keeps rows 1..3 (shape (1, 2, 2), computed alongside). -/
theorem claim4_unpad_bug :
    unpadImage t4 (4, 2) = .ok ⟨[1, 0, 2], []⟩ ∧
    t4.narrowRange 1 1 (4 - 1) = .ok ⟨[1, 2, 2], List.replicate 4 0⟩ ∧
    ¬ ([1, 0, 2] : List Nat) = [1, 2, 2] := by
  refine ⟨?_, ?_, by decide⟩
  · simp [unpadImage, t4, Tensor.narrowRange, Tensor.ofFn]
    norm_num
  · rfl

theorem bind_isOk_false {ε α β : Type} (x : Except ε α)
    (f : α → Except ε β) (h : ∀ a, (f a).isOk = false) :
    (x >>= f : Except ε β).isOk = false := by
  cases x with
  | error e => rfl
  | ok a => exact h a

/-- Claim C1 (code bug): `prepare_inputs_labels_for_multimodal` never
returns normally - after computing the merged image features it
unconditionally hits `todo!()` (the fusion with the token embeddings is
commented out in the source), for every configuration, encoder, and
input; at a concrete well-formed single-image input it returns the
unimplemented-code panic. -/
theorem claim1_fusion_unimplemented :
    (∀ (cfg : LLaVAConfigM)
       (encodeImages : Tensor ℚ → Except MErr (Tensor ℚ))
       (gridFn : GridShapeFn) (inputIds : Tensor Int)
       (images : List (Tensor ℚ)) (imageSizes : List (Nat × Nat)),
       (prepareInputsLabelsForMultimodal cfg encodeImages gridFn inputIds
         images imageSizes).isOk = false) ∧
    prepareInputsLabelsForMultimodal cfgFlat encode1 (gridConst 1 1) idsT
      [img1] [(4, 4)] = .error MErr.notImplemented := by
  constructor
  · intro cfg enc gridFn ids images sizes
    rw [prepareInputsLabelsForMultimodal]
    refine bind_isOk_false _ _ fun a => ?_
    refine bind_isOk_false _ _ fun b => ?_
    refine bind_isOk_false _ _ fun c => ?_
    refine bind_isOk_false _ _ fun d => ?_
    refine bind_isOk_false _ _ fun e => ?_
    refine bind_isOk_false _ _ fun f => ?_
    rfl
  · rfl

/-- Counterexample to claim C8: the policy string `spatialextra` is none
of `flat`, `spatial`, `spatial_unpad`, yet the merge succeeds (the
dispatch only tests the `spatial` prefix), instead of failing with a
configuration error. -/
theorem claim8_counterexample :
    ¬ cfg8.mmPatchMergeType = "flat" ∧
    ¬ cfg8.mmPatchMergeType = "spatial" ∧
    ¬ cfg8.mmPatchMergeType = "spatial_unpad" ∧
    mergeImageFeatures cfg8 (gridConst 1 1) [feat8] [(336, 336)] =
      .ok [⟨[2, 1], [0, 0]⟩] := by
  refine ⟨?_, ?_, ?_, rfl⟩ <;> decide

/-- Claim C8 as amended: only a policy that is neither `flat` nor
prefixed by `spatial` fails, with an error naming the offending value,
and the failure happens inside the fusion call: the load-time checks of
`LLaVA::load` never inspect the merge policy (their outcome is invariant
under changing it). -/
theorem claim8_amended (cfg : LLaVAConfigM)
    (hf : cfg.mmPatchMergeType ≠ "flat")
    (hsp : strStarts cfg.mmPatchMergeType "spatial" = false) :
    (∀ (gridFn : GridShapeFn) (feats : List (Tensor ℚ))
       (sizes : List (Nat × Nat)),
       mergeImageFeatures cfg gridFn feats sizes =
         .error (.unexpectedMergeType cfg.mmPatchMergeType)) ∧
    (∀ (p1 p2 : String) (mc : Except MErr VisionModelM)
       (w : Except MErr Unit),
       llavaLoadChecks { cfg with mmPatchMergeType := p1 } mc w =
       llavaLoadChecks { cfg with mmPatchMergeType := p2 } mc w) := by
  constructor
  · intro gridFn feats sizes
    rw [mergeImageFeatures, if_neg hf, if_neg (by simp [hsp])]
  · intro p1 p2 mc w
    rfl

/-- Witness for the amended claim C8 at the concrete policy `qq`. -/
theorem claim8_witness :
    mergeImageFeatures { cfgSpatial 1 with mmPatchMergeType := "qq" }
      (gridConst 1 1) [feat8] [(336, 336)] =
      .error (.unexpectedMergeType "qq") ∧
    llavaLoadChecks { cfgSpatial 1 with mmPatchMergeType := "qq" }
      (.ok model0) (.ok ()) =
    llavaLoadChecks { cfgSpatial 1 with mmPatchMergeType := "spatial_unpad" }
      (.ok model0) (.ok ()) := by
  obtain ⟨h1, h2⟩ := claim8_amended
    { cfgSpatial 1 with mmPatchMergeType := "qq" } (by decide) (by decide)
  exact ⟨h1 (gridConst 1 1) [feat8] [(336, 336)],
    h2 "qq" "spatial_unpad" (.ok model0) (.ok ())⟩

/-- Claim C7: only select layers -1 and -2 pass `ClipVisionTower::load`;
any other value errors at load time with the offending value,
independently of the model constructor (which is never run); the forward
pass resolves `hidden_states[len + select_layer]` (-1 the last entry,
-2 the second-to-last) and then drops sequence index 0 unless the
feature method is `cls_patch`. -/
theorem claim7_select_layer (cfg : LLaVAConfigM)
    (hname : cfg.mmVisionTower = "openai/clip-vit-large-patch14-336") :
    (∀ sl : Int, sl ≠ -1 → sl ≠ -2 → ∀ mc : Except MErr VisionModelM,
      clipVisionTowerLoad { cfg with mmVisionSelectLayer := sl } mc =
        .error (.unsupportedSelectLayer sl)) ∧
    (∀ sl : Int, sl = -1 ∨ sl = -2 → ∀ m : VisionModelM,
      clipVisionTowerLoad { cfg with mmVisionSelectLayer := sl } (.ok m) =
        .ok ⟨m, sl, cfg.mmVisionSelectFeature⟩) ∧
    (∀ (tw : ClipVisionTowerM) (x : Tensor ℚ) (hsList : List (Tensor ℚ)),
      tw.model.outputHS x = .ok hsList →
      (tw.selectLayer = -1 → hsList ≠ [] →
        clipVisionTowerForward tw x =
          (if tw.selectFeatureMethod = "cls_patch" then
            .ok (hsList.getD (hsList.length - 1) ⟨[], []⟩)
          else
            (hsList.getD (hsList.length - 1) ⟨[], []⟩).narrowRange 1 1
              ((hsList.getD (hsList.length - 1) ⟨[], []⟩).shape.getD 1 0))) ∧
      (tw.selectLayer = -2 → 2 ≤ hsList.length →
        clipVisionTowerForward tw x =
          (if tw.selectFeatureMethod = "cls_patch" then
            .ok (hsList.getD (hsList.length - 2) ⟨[], []⟩)
          else
            (hsList.getD (hsList.length - 2) ⟨[], []⟩).narrowRange 1 1
              ((hsList.getD (hsList.length - 2) ⟨[], []⟩).shape.getD
                1 0)))) := by
  refine ⟨?_, ?_, ?_⟩
  · intro sl h1 h2 mc
    rw [clipVisionTowerLoad, if_pos hname, if_neg (by simp [h1, h2])]
    rfl
  · intro sl hor m
    rw [clipVisionTowerLoad, if_pos hname, if_pos hor]
    rfl
  · intro tw x hsList hout
    constructor
    · intro hsl hne
      have hlen : 0 < hsList.length := List.length_pos.mpr hne
      rw [clipVisionTowerForward, hout]
      simp only [except_bind_ok, hsl]
      rw [if_pos (by constructor <;> omega)]
      have hidx : ((hsList.length : Int) + (-1)).toNat = hsList.length - 1 :=
        by omega
      simp only [except_bind_ok, hidx]
    · intro hsl hge
      rw [clipVisionTowerForward, hout]
      simp only [except_bind_ok, hsl]
      rw [if_pos (by constructor <;> omega)]
      have hidx : ((hsList.length : Int) + (-2)).toNat = hsList.length - 2 :=
        by omega
      simp only [except_bind_ok, hidx]

/-- Witness for claim C7: select layer 0 is rejected at load time with a
configuration error, -1 is accepted, and the forward pass over two
hidden states with select layer -2 under `cls_patch` returns the first
of the two. -/
theorem claim7_witness :
    clipVisionTowerLoad { cfgSpatial 24 with mmVisionSelectLayer := 0 }
      (.ok model0) = .error (.unsupportedSelectLayer 0) ∧
    clipVisionTowerLoad { cfgSpatial 24 with mmVisionSelectLayer := -1 }
      (.ok model0) = .ok ⟨model0, -1, "patch"⟩ ∧
    clipVisionTowerForward
      ⟨⟨fun _ => .ok [⟨[1, 1, 1], [0]⟩, ⟨[1, 1, 1], [5]⟩]⟩, -2, "cls_patch"⟩
      px0 = .ok ⟨[1, 1, 1], [0]⟩ := by
  obtain ⟨h1, h2, h3⟩ := claim7_select_layer (cfgSpatial 24) rfl
  refine ⟨h1 0 (by decide) (by decide) (.ok model0), h2 (-1) (Or.inl rfl) model0, ?_⟩
  have := (h3 ⟨⟨fun _ => .ok [⟨[1, 1, 1], [0]⟩, ⟨[1, 1, 1], [5]⟩]⟩, -2,
    "cls_patch"⟩ px0 [⟨[1, 1, 1], [0]⟩, ⟨[1, 1, 1], [5]⟩] rfl).2 rfl
    (by norm_num)
  simpa using this

theorem clipEncoderOutputHS_length (layers : List (Tensor ℚ → Tensor ℚ)) :
    ∀ xs, (clipEncoderOutputHS layers xs).length = layers.length := by
  induction layers with
  | nil => intro xs; rfl
  | cons l ls ih =>
    intro xs
    simp [clipEncoderOutputHS, ih]

theorem applyLayers_cons (l : Tensor ℚ → Tensor ℚ)
    (ls : List (Tensor ℚ → Tensor ℚ)) (n : Nat) (xs : Tensor ℚ) :
    applyLayers (l :: ls) (n + 1) xs = applyLayers ls n (l xs) := by
  simp [applyLayers, List.take_succ_cons]

theorem clipEncoderOutputHS_getD (layers : List (Tensor ℚ → Tensor ℚ)) :
    ∀ (xs : Tensor ℚ) (i : Nat), i < layers.length →
      (clipEncoderOutputHS layers xs).getD i ⟨[], []⟩ =
        applyLayers layers (i + 1) xs := by
  induction layers with
  | nil => intro xs i hi; simp at hi
  | cons l ls ih =>
    intro xs i hi
    cases i with
    | zero =>
      simp [clipEncoderOutputHS, applyLayers, List.take_succ_cons]
    | succ j =>
      rw [clipEncoderOutputHS]
      simp only [List.getD_cons_succ]
      rw [applyLayers_cons, ih (l xs) j (by simpa using hi)]

theorem foldl_apply_shape (ls : List (Tensor ℚ → Tensor ℚ)) :
    ∀ (xs : Tensor ℚ), (∀ f ∈ ls, ∀ t : Tensor ℚ, (f t).shape = t.shape) →
      (ls.foldl (fun a f => f a) xs).shape = xs.shape := by
  induction ls with
  | nil => intro xs h; rfl
  | cons l ls ih =>
    intro xs h
    rw [List.foldl_cons, ih (l xs) (fun f hf => h f (by simp [hf])),
      h l (by simp)]

theorem applyLayers_shape (layers : List (Tensor ℚ → Tensor ℚ)) (n : Nat)
    (xs : Tensor ℚ)
    (h : ∀ f ∈ layers, ∀ t : Tensor ℚ, (f t).shape = t.shape) :
    (applyLayers layers n xs).shape = xs.shape :=
  foldl_apply_shape _ xs (fun f hf t => h f (List.mem_of_mem_take hf) t)

theorem getLast?_cons_ne {α : Type} (a : α) (t : List α) (h : t ≠ []) :
    (a :: t).getLast? = t.getLast? := by
  cases t with
  | nil => cases h rfl
  | cons b t2 => rw [List.getLast?_cons_cons]

theorem clipEncoderOutputHS_getLast
    (layers : List (Tensor ℚ → Tensor ℚ)) :
    ∀ (xs : Tensor ℚ), layers ≠ [] →
      (clipEncoderOutputHS layers xs).getLast? =
        some (applyLayers layers layers.length xs) := by
  induction layers with
  | nil => intro xs h; cases h rfl
  | cons l ls ih =>
    intro xs h
    cases hls : ls with
    | nil =>
      subst hls
      simp [clipEncoderOutputHS, applyLayers]
    | cons l2 ls2 =>
      subst hls
      rw [clipEncoderOutputHS, getLast?_cons_ne _ _ (by
        intro hnil
        have hL := clipEncoderOutputHS_length (l2 :: ls2) (l xs)
        rw [hnil] at hL
        simp at hL)]
      rw [ih (l xs) (by simp)]
      have hL : (l :: l2 :: ls2).length = (l2 :: ls2).length + 1 := by simp
      rw [hL, applyLayers_cons]

/-- Claim C9: `output_hidden_states` returns `num_hidden_layers + 1`
tensors: entry `i` is the output of encoder layer `i` (shape
`(batch, sequence, embed_dim)` when the layers preserve shapes), and the
appended final entry is the final layer norm of the class-token
(sequence position 0) slice of the last layer - a rank-2
`(batch, embed_dim)` tensor; hence index `len - 1` (select layer -1) is
the pooled output while `len - 2` (select layer -2) is the last full
encoder layer. -/
theorem claim9_hidden_states (b n e : Nat) (hn : 0 < n)
    (layers : List (Tensor ℚ → Tensor ℚ)) (hl : layers ≠ [])
    (hpres : ∀ f ∈ layers, ∀ t : Tensor ℚ, (f t).shape = t.shape)
    (embF preLN finalLN : Tensor ℚ → Tensor ℚ)
    (hfin : ∀ t : Tensor ℚ, (finalLN t).shape = t.shape) (x : Tensor ℚ)
    (hin : (preLN (embF x)).shape = [b, n, e]) :
    ∃ (out : List (Tensor ℚ)) (pooled : Tensor ℚ),
      clipVisionOutputHS embF preLN finalLN layers x = .ok out ∧
      out.length = layers.length + 1 ∧
      (∀ i, i < layers.length →
        out.getD i ⟨[], []⟩ = applyLayers layers (i + 1) (preLN (embF x)) ∧
        (out.getD i ⟨[], []⟩).shape = [b, n, e]) ∧
      (applyLayers layers layers.length (preLN (embF x))).indexDim 1 0 =
        .ok pooled ∧
      out.getD layers.length ⟨[], []⟩ = finalLN pooled ∧
      pooled.shape = [b, e] ∧
      (out.getD layers.length ⟨[], []⟩).shape.length = 2 ∧
      out.getD (((out.length : Int) + (-1)).toNat) ⟨[], []⟩ =
        finalLN pooled ∧
      out.getD (((out.length : Int) + (-2)).toNat) ⟨[], []⟩ =
        applyLayers layers layers.length (preLN (embF x)) := by
  have hlen := clipEncoderOutputHS_length layers (preLN (embF x))
  have hlast := clipEncoderOutputHS_getLast layers (preLN (embF x)) hl
  have hlshape :
      (applyLayers layers layers.length (preLN (embF x))).shape =
        [b, n, e] := by
    rw [applyLayers_shape layers _ _ hpres, hin]
  have hpool :
      (applyLayers layers layers.length (preLN (embF x))).indexDim 1 0 =
      .ok (Tensor.ofFn
        ((applyLayers layers layers.length (preLN (embF x))).shape.eraseIdx 1)
        (fun m =>
          (applyLayers layers layers.length (preLN (embF x))).entry
            (m.insertIdx 1 0))) := by
    rw [Tensor.indexDim, dif_pos ?_]
    constructor
    · rw [hlshape]; norm_num
    · rw [hlshape]; simpa using hn
  have hpshape :
      ((applyLayers layers layers.length (preLN (embF x))).shape.eraseIdx
        1) = [b, e] := by
    rw [hlshape]; rfl
  refine ⟨clipEncoderOutputHS layers (preLN (embF x)) ++
    [finalLN (Tensor.ofFn
      ((applyLayers layers layers.length (preLN (embF x))).shape.eraseIdx 1)
      (fun m =>
        (applyLayers layers layers.length (preLN (embF x))).entry
          (m.insertIdx 1 0)))], _, ?_, ?_, ?_, hpool, ?_, ?_, ?_, ?_, ?_⟩
  · rw [clipVisionOutputHS, hlast]
    simp only [except_bind_ok]
    rw [hpool]
    simp only [except_bind_ok]
  · simp [hlen]
  · intro i hi
    rw [List.getD_append _ _ _ _ (by rw [hlen]; exact hi)]
    exact ⟨clipEncoderOutputHS_getD layers _ i hi, by
      rw [clipEncoderOutputHS_getD layers _ i hi,
        applyLayers_shape layers _ _ hpres, hin]⟩
  · rw [List.getD_append_right _ _ _ _ (by rw [hlen])]
    simp [hlen]
  · rw [Tensor.shape_ofFn]
    exact hpshape
  · rw [List.getD_append_right _ _ _ _ (by rw [hlen])]
    simp only [hlen, Nat.sub_self, List.getD_cons_zero]
    rw [hfin, Tensor.shape_ofFn, hpshape]
    rfl
  · have hL2 : ∀ z : Tensor ℚ,
        (((clipEncoderOutputHS layers (preLN (embF x)) ++ [z]).length :
          Int)) = (layers.length : Int) + 1 := by
      intro z; simp [hlen]
    rw [hL2]
    have hidx : ((layers.length : Int) + 1 + (-1)).toNat = layers.length :=
      by omega
    rw [hidx, List.getD_append_right _ _ _ _ (by rw [hlen])]
    simp [hlen]
  · have hL2 : ∀ z : Tensor ℚ,
        (((clipEncoderOutputHS layers (preLN (embF x)) ++ [z]).length :
          Int)) = (layers.length : Int) + 1 := by
      intro z; simp [hlen]
    rw [hL2]
    have hpos := List.length_pos.mpr hl
    have hidx : ((layers.length : Int) + 1 + (-2)).toNat =
        layers.length - 1 := by omega
    rw [hidx, List.getD_append _ _ _ _ (by rw [hlen]; omega)]
    rw [clipEncoderOutputHS_getD layers _ _ (by omega)]
    congr 1
    omega

/-- Witness for claim C9: one identity encoder layer on a `(1, 1, 1)`
input: two hidden states are returned and the pooled entry has shape
`(1, 1)`. -/
theorem claim9_witness :
    ∃ (out : List (Tensor ℚ)) (pooled : Tensor ℚ),
      clipVisionOutputHS id id id [idLayer] x9 = .ok out ∧
      out.length = 1 + 1 ∧ pooled.shape = [1, 1] := by
  obtain ⟨out, pooled, h1, h2, h3, h4, h5, h6, h7, h8, h9⟩ :=
    claim9_hidden_states 1 1 1 (by norm_num) [idLayer] (by simp)
      (by intro f hf t
          simp only [List.mem_singleton] at hf
          subst hf
          rfl)
      id id id (fun t => rfl) x9 rfl
  exact ⟨out, pooled, h1, h2, h6⟩

/-- Claim C10: when the weight store has no `class_embedding` tensor,
`ClipVisionEmbeddings::new` succeeds anyway, substituting the freshly
drawn random vector; concretely, two loads of the same store with
different draws produce models whose forward outputs differ. -/
theorem claim10_random_class_embedding :
    (∀ (store : WStore) (c : ClipCfgM) (rngf : Nat → ℚ) (w1 w2 : Tensor ℚ),
      store "class_embedding" = none →
      vsGet store [numPositionsOf c, c.embedDim]
        "position_embedding.weight" = .ok w1 →
      vsGet store [c.embedDim, c.numChannels, c.patchSize, c.patchSize]
        "patch_embedding.weight" = .ok w2 →
      clipVisionEmbeddingsNew store c rngf =
        .ok ⟨w2, List.range (numPositionsOf c),
          Tensor.ofFn [c.embedDim] (fun m => rngf (m.getD 0 0)), w1⟩) ∧
    (∃ m1 m2 o1 o2,
      clipVisionEmbeddingsNew store10 c10cfg rf1 = .ok m1 ∧
      clipVisionEmbeddingsNew store10 c10cfg rf2 = .ok m2 ∧
      clipVisionEmbeddingsForward m1 convF0 px0 = .ok o1 ∧
      clipVisionEmbeddingsForward m2 convF0 px0 = .ok o2 ∧ o1 ≠ o2) := by
  constructor
  · intro store c rngf w1 w2 hnone h1 h2
    rw [clipVisionEmbeddingsNew]
    rw [if_neg (by rw [hnone]; simp)]
    simp only [except_bind_ok]
    rw [h1]
    simp only [except_bind_ok]
    rw [h2]
    simp only [except_bind_ok]
  · refine ⟨_, _, ⟨[1, 2, 1], [(0 : ℚ) + 0, (0 : ℚ) + 0]⟩,
      ⟨[1, 2, 1], [(1 : ℚ) + 0, (0 : ℚ) + 0]⟩, rfl, rfl, rfl, rfl, ?_⟩
    simp [Tensor.mk.injEq]

/-- Witness for claim C10's general part at the concrete tiny store. -/
theorem claim10_witness :
    clipVisionEmbeddingsNew store10 c10cfg rf1 =
      .ok ⟨⟨[1, 1, 1, 1], [0]⟩, List.range (numPositionsOf c10cfg),
        Tensor.ofFn [c10cfg.embedDim] (fun m => rf1 (m.getD 0 0)),
        ⟨[2, 1], [0, 0]⟩⟩ :=
  claim10_random_class_embedding.1 store10 c10cfg rf1 ⟨[2, 1], [0, 0]⟩
    ⟨[1, 1, 1, 1], [0]⟩ rfl rfl rfl
